import Mathlib

/-!
Verification of the QAagentic SDK core (packages/javascript/src/core) against its
specification.  The TypeScript source is shallowly embedded: classes become
structures, methods become functions on those structures, `Date` values become
epoch-millisecond naturals supplied by the caller, `console.warn` calls become an
explicit warning log, and the effect of invoking the configured sink reporters is
recorded as an explicit invocation log.  A sink's callback may throw/reject; a
sink is therefore modelled by its throwing behaviour, a function from the
lifecycle event it receives to a Bool (`true` = the callback throws/rejects).
-/

namespace QAgentic

/-- Test execution status (core/status.ts, as declared by the package's type
declarations): passed, failed, broken, skipped, pending, running, unknown. -/
inductive Status where
  | passed
  | failed
  | broken
  | skipped
  | pending
  | running
  | unknown
deriving DecidableEq, Repr

/-- The fields of core/types.ts `TestResult` that the reporter logic reads
(identifier, names, status, duration, error data).  Label/link/step/attachment
payloads are carried opaquely by the reporters and are omitted. -/
structure TestResult where
  id : String
  name : String
  fullName : String
  status : Status
  durationMs : Nat := 0
  errorMessage : Option String := none
  errorType : Option String := none
  stackTrace : Option String := none
deriving DecidableEq, Repr

/-- core/types.ts `TestRunResult`: the mutable run record owned by the
orchestrator.  `Date` timestamps are epoch milliseconds; `passRate` is the
JS number `(passed / total) * 100`, embedded as a rational. -/
structure TestRunResult where
  id : String
  name : String
  projectName : String
  environment : String
  startTime : Option Nat := none
  endTime : Option Nat := none
  durationMs : Nat := 0
  tests : List TestResult := []
  total : Nat := 0
  passed : Nat := 0
  failed : Nat := 0
  broken : Nat := 0
  skipped : Nat := 0
  passRate : ℚ := 0
deriving DecidableEq, Repr

/-- A lifecycle event delivered to a sink reporter (`BaseReporter.startRun`,
`reportTest`, `endRun` in core/reporter.ts). -/
inductive SinkEvent where
  | startRunEv (runId : String)
  | reportTestEv (testId : String)
  | endRunEv (runId : String)
deriving DecidableEq, Repr

/-- Result of the orchestrator's fan-out loop over the registered sinks:
which sinks' callbacks were invoked (index paired with the event they got),
and whether an exception escaped the loop. -/
structure FanOut where
  invoked : List (Nat × SinkEvent)
  errored : Bool
deriving DecidableEq, Repr

/-- The loop `for (const reporter of this.reporters) { await reporter.m(...) }`
starting at sink index `i`.  There is no try/catch in the source loop, so the
first callback that throws aborts the loop and the exception propagates. -/
def fanOutFrom (i : Nat) : List (SinkEvent → Bool) → SinkEvent → FanOut
  | [], _ => ⟨[], false⟩
  | s :: rest, e =>
    if s e then ⟨[(i, e)], true⟩
    else
      let r := fanOutFrom (i + 1) rest e
      ⟨(i, e) :: r.invoked, r.errored⟩

/-- Fan an event out to all registered sinks in registration order. -/
def fanOut (sinks : List (SinkEvent → Bool)) (e : SinkEvent) : FanOut :=
  fanOutFrom 0 sinks e

/-- core/reporter.ts `QAgenticReporter`: the orchestrator.  `sinkThrows`
models `this.reporters` by each registered sink's throwing behaviour;
`currentRun` is `this.currentRun` (null ↦ none). -/
structure QAgenticReporter where
  sinkThrows : List (SinkEvent → Bool)
  currentRun : Option TestRunResult := none

/-- Outcome of one orchestrator method call: the successor state, the value
returned to the caller (`none` when the method rejects with a sink's
exception), the sink fan-out that took place, and the `console.warn` lines
emitted by the orchestrator itself. -/
structure OrchOutcome (α : Type) where
  state : QAgenticReporter
  ret : Option α
  fan : FanOut
  warnings : List String

/-- The caller-supplied parts of `startRun(options)`.  In the source, absent
`options.id` / `options.name` / `options.projectName` / `options.environment`
are defaulted from a fresh uuid, the current timestamp and the configuration;
those defaults are environment inputs and are folded into the options here. -/
structure RunOptions where
  id : String
  name : String
  projectName : String
  environment : String
deriving DecidableEq, Repr

namespace QAgenticReporter

/-- The run object literal built by `startRun` (core/reporter.ts:475-495):
fresh counters, empty test list, `startTime = new Date()`. -/
def mkRun (opts : RunOptions) (now : Nat) : TestRunResult :=
  { id := opts.id
    name := opts.name
    projectName := opts.projectName
    environment := opts.environment
    startTime := some now }

/-- `startRun` (core/reporter.ts:474-502): overwrite `this.currentRun` with the
new run, then fan `startRun` out to every sink; the new run is returned
(unless a sink's callback throws, in which case the promise rejects). -/
def startRun (o : QAgenticReporter) (opts : RunOptions) (now : Nat) :
    OrchOutcome TestRunResult :=
  let run := mkRun opts now
  let fan := fanOut o.sinkThrows (.startRunEv run.id)
  { state := { o with currentRun := some run }
    ret := if fan.errored then none else some run
    fan := fan
    warnings := [] }

/-- The mutation `reportTest` applies to the active run
(core/reporter.ts:534-550): append the test, increment `total`, and increment
the bucket selected by the `switch` on `test.status` (statuses other than the
four cases fall through with no bucket increment). -/
def applyTest (run : TestRunResult) (t : TestResult) : TestRunResult :=
  let r1 := { run with tests := run.tests ++ [t], total := run.total + 1 }
  match t.status with
  | .passed => { r1 with passed := r1.passed + 1 }
  | .failed => { r1 with failed := r1.failed + 1 }
  | .broken => { r1 with broken := r1.broken + 1 }
  | .skipped => { r1 with skipped := r1.skipped + 1 }
  | _ => r1

/-- `reportTest` (core/reporter.ts:528-563): warn and return when no run is
active; otherwise mutate the run, then fan the event out (the mutation happens
before the loop, so it persists even if a sink throws). -/
def reportTest (o : QAgenticReporter) (t : TestResult) : OrchOutcome Unit :=
  match o.currentRun with
  | none =>
      { state := o
        ret := some ()
        fan := ⟨[], false⟩
        warnings := ["[QAgenticReporter] No active run to report test"] }
  | some run =>
      let run' := applyTest run t
      let fan := fanOut o.sinkThrows (.reportTestEv t.id)
      { state := { o with currentRun := some run' }
        ret := if fan.errored then none else some ()
        fan := fan
        warnings := [] }

/-- The sealing mutation of `endRun` (core/reporter.ts:510-514): set
`endTime`, recompute `durationMs` and `passRate` from the counters
(`total > 0 ? passed / total * 100 : 0`). -/
def sealRun (run : TestRunResult) (now : Nat) : TestRunResult :=
  { run with
    endTime := some now
    durationMs := now - run.startTime.getD 0
    passRate := if run.total > 0 then ((run.passed : ℚ) / (run.total : ℚ)) * 100 else 0 }

/-- `endRun` (core/reporter.ts:507-523): return null silently when no run is
active (no warning is logged on this path); otherwise seal the run, fan
`endRun` out to every sink, and only then clear the slot and return the sealed
run.  If a sink throws, the clearing assignment is never reached. -/
def endRun (o : QAgenticReporter) (now : Nat) : OrchOutcome TestRunResult :=
  match o.currentRun with
  | none =>
      { state := o, ret := none, fan := ⟨[], false⟩, warnings := [] }
  | some run =>
      let sealed := sealRun run now
      let fan := fanOut o.sinkThrows (.endRunEv sealed.id)
      if fan.errored then
        { state := { o with currentRun := some sealed }
          ret := none
          fan := fan
          warnings := [] }
      else
        { state := { o with currentRun := none }
          ret := some sealed
          fan := fan
          warnings := [] }

/-- Fold a sequence of `reportTest` calls over the orchestrator state. -/
def reportMany (o : QAgenticReporter) (ts : List TestResult) : QAgenticReporter :=
  ts.foldl (fun o t => (reportTest o t).state) o

end QAgenticReporter

/-- Number of tests in the list carrying the given status. -/
def countStatus (st : Status) (ts : List TestResult) : Nat :=
  (ts.filter (fun t => t.status = st)).length

/-- The counter bookkeeping a run should satisfy: `total` counts the reported
tests and each bucket counts the tests carrying that status. -/
def countersOk (run : TestRunResult) : Prop :=
  run.total = run.tests.length ∧
  run.passed = countStatus .passed run.tests ∧
  run.failed = countStatus .failed run.tests ∧
  run.broken = countStatus .broken run.tests ∧
  run.skipped = countStatus .skipped run.tests

theorem countStatus_append (st : Status) (ts : List TestResult) (t : TestResult) :
    countStatus st (ts ++ [t]) = countStatus st ts + (if t.status = st then 1 else 0) := by
  simp only [countStatus, List.filter_append, List.length_append]
  by_cases h : t.status = st <;> simp [h]

theorem countersOk_applyTest {run : TestRunResult} (t : TestResult)
    (h : countersOk run) : countersOk (QAgenticReporter.applyTest run t) := by
  obtain ⟨h0, h1, h2, h3, h4⟩ := h
  cases hs : t.status <;>
    simp [QAgenticReporter.applyTest, countersOk, hs, countStatus_append,
      h0, h1, h2, h3, h4]

theorem countersOk_reportMany {o : QAgenticReporter} {run : TestRunResult}
    (hrun : o.currentRun = some run) (h : countersOk run) (ts : List TestResult) :
    ∃ run', (QAgenticReporter.reportMany o ts).currentRun = some run' ∧
      countersOk run' ∧ run'.tests = run.tests ++ ts := by
  induction ts generalizing o run with
  | nil => exact ⟨run, by simpa [QAgenticReporter.reportMany] using hrun, h, by simp⟩
  | cons t ts ih =>
      have hstep : (QAgenticReporter.reportTest o t).state.currentRun =
          some (QAgenticReporter.applyTest run t) := by
        simp [QAgenticReporter.reportTest, hrun]
      obtain ⟨run', hr1, hr2, hr3⟩ :=
        ih hstep (countersOk_applyTest t h)
      refine ⟨run', ?_, hr2, ?_⟩
      · simpa [QAgenticReporter.reportMany] using hr1
      · rw [hr3]; cases hs : t.status <;> simp [QAgenticReporter.applyTest, hs]

theorem countStatus_cons (st : Status) (t : TestResult) (ts : List TestResult) :
    countStatus st (t :: ts) = (if t.status = st then 1 else 0) + countStatus st ts := by
  simp only [countStatus, List.filter_cons]
  by_cases h : t.status = st <;> simp [h, Nat.add_comm]

theorem length_eq_sum_of_terminal (ts : List TestResult)
    (h : ∀ t ∈ ts, t.status = .passed ∨ t.status = .failed ∨
      t.status = .broken ∨ t.status = .skipped) :
    ts.length = countStatus .passed ts + countStatus .failed ts +
      countStatus .broken ts + countStatus .skipped ts := by
  induction ts with
  | nil => simp [countStatus]
  | cons t ts ih =>
      have ih' := ih (fun x hx => h x (List.mem_cons_of_mem _ hx))
      have ht := h t (List.mem_cons_self _ _)
      rcases ht with h1 | h1 | h1 | h1 <;>
        simp [countStatus_cons, h1] <;> omega

theorem startRun_state (o : QAgenticReporter) (opts : RunOptions) (now : Nat) :
    (QAgenticReporter.startRun o opts now).state =
      { o with currentRun := some (QAgenticReporter.mkRun opts now) } := rfl

theorem countersOk_mkRun (opts : RunOptions) (now : Nat) :
    countersOk (QAgenticReporter.mkRun opts now) := by
  simp [countersOk, QAgenticReporter.mkRun, countStatus]

/-- Claim C2, counterexample: reporting a single test whose status is
`pending` leaves the run with `total = 1` while the four buckets sum to `0`,
because the `switch` in `reportTest` has no case for the non-terminal
statuses; so `total == passed+failed+broken+skipped` does not hold after
every `reportTest`. -/
theorem reportTest_pending_counter_gap :
    ((QAgenticReporter.reportTest
        (QAgenticReporter.startRun ⟨[], none⟩ ⟨"r1", "run1", "P", "dev"⟩ 0).state
        { id := "t1", name := "t", fullName := "s.t", status := .pending }).state.currentRun).map
      (fun r => (r.total, r.passed + r.failed + r.broken + r.skipped)) = some (1, 0) := by
  rfl

/-- Claim C2 (amended): after any sequence of `reportTest` calls on a run
opened by `startRun`, each of the four buckets equals the number of reported
tests carrying that status and `total` equals the number of `reportTest`
calls; `total == passed+failed+broken+skipped` holds provided every reported
test carries one of the four terminal statuses (a pending/running/unknown
test increments `total` but no bucket). -/
theorem orchestrator_counter_invariant (o : QAgenticReporter) (opts : RunOptions)
    (now : Nat) (ts : List TestResult) :
    ∃ run', (QAgenticReporter.reportMany
        (QAgenticReporter.startRun o opts now).state ts).currentRun = some run' ∧
      run'.total = ts.length ∧
      run'.passed = countStatus .passed ts ∧
      run'.failed = countStatus .failed ts ∧
      run'.broken = countStatus .broken ts ∧
      run'.skipped = countStatus .skipped ts ∧
      ((∀ t ∈ ts, t.status = .passed ∨ t.status = .failed ∨
          t.status = .broken ∨ t.status = .skipped) →
        run'.total = run'.passed + run'.failed + run'.broken + run'.skipped) := by
  have hstart : (QAgenticReporter.startRun o opts now).state.currentRun =
      some (QAgenticReporter.mkRun opts now) := rfl
  obtain ⟨run', h1, ⟨c0, c1, c2, c3, c4⟩, h3⟩ :=
    countersOk_reportMany hstart (countersOk_mkRun opts now) ts
  have htests : run'.tests = ts := by simpa [QAgenticReporter.mkRun] using h3
  rw [htests] at c0 c1 c2 c3 c4
  refine ⟨run', h1, c0, c1, c2, c3, c4, fun hterm => ?_⟩
  rw [c0, c1, c2, c3, c4]
  exact length_eq_sum_of_terminal ts hterm

/-- Witness for C2's amended theorem: a concrete run with one passed and one
failed test, every hypothesis discharged. -/
theorem orchestrator_counter_invariant_witness :
    ((QAgenticReporter.reportMany
        (QAgenticReporter.startRun ⟨[], none⟩ ⟨"r1", "run1", "P", "dev"⟩ 0).state
        [{ id := "t1", name := "a", fullName := "s.a", status := .passed },
         { id := "t2", name := "b", fullName := "s.b", status := .failed }]).currentRun).map
      (fun r => (r.total, r.passed + r.failed + r.broken + r.skipped)) =
      some (2, 2) := by
  obtain ⟨run', h1, h2, _, _, _, _, h7⟩ :=
    orchestrator_counter_invariant ⟨[], none⟩ ⟨"r1", "run1", "P", "dev"⟩ 0
      [{ id := "t1", name := "a", fullName := "s.a", status := .passed },
       { id := "t2", name := "b", fullName := "s.b", status := .failed }]
  have h2' : run'.total = 2 := by simpa using h2
  have hsum := h7 (by decide)
  rw [h1]
  simp [h2', ← hsum]

/-- Claim C6: `endRun` seals the run with `passRate = 0` when `total = 0` and
`passRate = passed/total*100` otherwise; concretely, a run with three passed
tests and one failed test is sealed with `total = 4`, `passed = 3`,
`failed = 1`, `passRate = 75`. -/
theorem endRun_passRate :
    (∀ (o : QAgenticReporter) (opts : RunOptions) (now : Nat)
        (ts : List TestResult) (now' : Nat),
      ∃ run', (QAgenticReporter.reportMany
          (QAgenticReporter.startRun o opts now).state ts).currentRun = some run' ∧
        (QAgenticReporter.sealRun run' now').passRate =
          (if ts.length = 0 then 0
           else ((countStatus .passed ts : ℚ) / (ts.length : ℚ)) * 100)) ∧
    ((QAgenticReporter.endRun
        (QAgenticReporter.reportMany
          (QAgenticReporter.startRun ⟨[], none⟩ ⟨"r1", "run1", "P", "dev"⟩ 0).state
          [{ id := "t1", name := "a", fullName := "s.a", status := .passed },
           { id := "t2", name := "b", fullName := "s.b", status := .passed },
           { id := "t3", name := "c", fullName := "s.c", status := .passed },
           { id := "t4", name := "d", fullName := "s.d", status := .failed }]) 100).ret).map
      (fun r => (r.total, r.passed, r.failed, r.passRate)) = some (4, 3, 1, 75) := by
  constructor
  · intro o opts now ts now'
    have hstart : (QAgenticReporter.startRun o opts now).state.currentRun =
        some (QAgenticReporter.mkRun opts now) := rfl
    obtain ⟨run', h1, ⟨c0, c1, _, _, _⟩, h3⟩ :=
      countersOk_reportMany hstart (countersOk_mkRun opts now) ts
    have htests : run'.tests = ts := by simpa [QAgenticReporter.mkRun] using h3
    rw [htests] at c0 c1
    refine ⟨run', h1, ?_⟩
    simp only [QAgenticReporter.sealRun, c0, c1]
    rcases Nat.eq_zero_or_pos ts.length with hz | hp
    · simp [hz]
    · have hne : ts.length ≠ 0 := Nat.pos_iff_ne_zero.mp hp
      simp [hp, hne]
  · show some ((4 : ℕ), (3 : ℕ), (1 : ℕ), (((3 : ℕ) : ℚ) / ((4 : ℕ) : ℚ)) * 100) =
      some (4, 3, 1, 75)
    norm_num

/-- Claim C8, counterexample: `endRun` called while Idle is a silent no-op —
it returns null and invokes no sink, but logs nothing (the warning-logging
claimed by the spec exists only on the `reportTest` path). -/
theorem endRun_idle_silent :
    (QAgenticReporter.endRun ⟨[fun _ => false], none⟩ 7).ret = none ∧
    (QAgenticReporter.endRun ⟨[fun _ => false], none⟩ 7).fan.invoked = [] ∧
    (QAgenticReporter.endRun ⟨[fun _ => false], none⟩ 7).warnings = [] :=
  ⟨rfl, rfl, rfl⟩

/-- Claim C8 (amended): while Idle, `reportTest` is a no-op that returns
undefined, invokes no sink, throws nothing and logs a warning; `endRun` is a
no-op that returns null, invokes no sink and throws nothing, but logs no
warning. -/
theorem idle_noop (o : QAgenticReporter) (t : TestResult) (now : Nat)
    (h : o.currentRun = none) :
    QAgenticReporter.reportTest o t =
      { state := o, ret := some (), fan := ⟨[], false⟩,
        warnings := ["[QAgenticReporter] No active run to report test"] } ∧
    QAgenticReporter.endRun o now =
      { state := o, ret := none, fan := ⟨[], false⟩, warnings := [] } := by
  obtain ⟨sinks, cr⟩ := o
  cases cr with
  | none => exact ⟨rfl, rfl⟩
  | some r => simp at h

/-- Witness for C8's amended theorem at a concrete Idle orchestrator. -/
theorem idle_noop_witness :
    QAgenticReporter.reportTest ⟨[], none⟩
        { id := "t1", name := "a", fullName := "s.a", status := .passed } =
      { state := ⟨[], none⟩, ret := some (), fan := ⟨[], false⟩,
        warnings := ["[QAgenticReporter] No active run to report test"] } ∧
    QAgenticReporter.endRun ⟨[], none⟩ 7 =
      { state := ⟨[], none⟩, ret := none, fan := ⟨[], false⟩, warnings := [] } :=
  idle_noop ⟨[], none⟩ { id := "t1", name := "a", fullName := "s.a", status := .passed } 7 rfl

theorem fanOutFrom_events (i : Nat) (sinks : List (SinkEvent → Bool)) (e : SinkEvent) :
    ∀ p ∈ (fanOutFrom i sinks e).invoked, p.2 = e := by
  induction sinks generalizing i with
  | nil => simp [fanOutFrom]
  | cons s rest ih =>
      intro p hp
      by_cases hs : s e
      · have hred : fanOutFrom i (s :: rest) e = ⟨[(i, e)], true⟩ := by
          simp [fanOutFrom, hs]
        rw [hred] at hp
        simp only [List.mem_singleton] at hp
        rw [hp]
      · have hred : fanOutFrom i (s :: rest) e =
            ⟨(i, e) :: (fanOutFrom (i + 1) rest e).invoked,
             (fanOutFrom (i + 1) rest e).errored⟩ := by
          simp [fanOutFrom, hs]
        rw [hred] at hp
        rcases List.mem_cons.mp hp with rfl | hmem
        · rfl
        · exact ih (i + 1) p hmem

/-- Claim C10: `startRun` while a run is active silently overwrites the
active-run slot: the state afterwards holds the freshly created run, nothing
is warned, every sink invocation made by the call carries the new run's
`startRun` event (so no sink receives an `endRun` callback for the discarded
run), and the value returned to the caller is never a sealed version of the
discarded run. -/
theorem startRun_overwrites_active (o : QAgenticReporter) (run : TestRunResult)
    (opts : RunOptions) (now : Nat) (_h : o.currentRun = some run) :
    (QAgenticReporter.startRun o opts now).state.currentRun =
      some (QAgenticReporter.mkRun opts now) ∧
    (∀ p ∈ (QAgenticReporter.startRun o opts now).fan.invoked,
      p.2 = SinkEvent.startRunEv opts.id) ∧
    (QAgenticReporter.startRun o opts now).warnings = [] ∧
    ((QAgenticReporter.startRun o opts now).ret = none ∨
      (QAgenticReporter.startRun o opts now).ret =
        some (QAgenticReporter.mkRun opts now)) ∧
    (∀ now', (QAgenticReporter.startRun o opts now).ret ≠
      some (QAgenticReporter.sealRun run now')) := by
  refine ⟨rfl, fanOutFrom_events 0 o.sinkThrows _, rfl, ?_, ?_⟩
  · by_cases hb : (fanOut o.sinkThrows (SinkEvent.startRunEv opts.id)).errored
    · left
      simp [QAgenticReporter.startRun, QAgenticReporter.mkRun, fanOut] at hb ⊢
      simp [hb]
    · right
      simp [QAgenticReporter.startRun, QAgenticReporter.mkRun, fanOut] at hb ⊢
      simp [hb]
  · intro now' hc
    have hret : (QAgenticReporter.startRun o opts now).ret =
        (if (fanOut o.sinkThrows (SinkEvent.startRunEv opts.id)).errored then none
         else some (QAgenticReporter.mkRun opts now)) := rfl
    rw [hret] at hc
    by_cases hb : (fanOut o.sinkThrows (SinkEvent.startRunEv opts.id)).errored
    · rw [if_pos hb] at hc
      exact Option.noConfusion hc
    · rw [if_neg hb] at hc
      have hET := congrArg TestRunResult.endTime (Option.some.inj hc)
      simp [QAgenticReporter.mkRun, QAgenticReporter.sealRun] at hET

/-- Witness for C10 at a concrete Active orchestrator. -/
theorem startRun_overwrites_active_witness :
    (QAgenticReporter.startRun
        ⟨[], some (QAgenticReporter.mkRun ⟨"old", "o", "P", "dev"⟩ 0)⟩
        ⟨"new", "n", "P", "dev"⟩ 5).state.currentRun =
      some (QAgenticReporter.mkRun ⟨"new", "n", "P", "dev"⟩ 5) ∧
    (QAgenticReporter.startRun
        ⟨[], some (QAgenticReporter.mkRun ⟨"old", "o", "P", "dev"⟩ 0)⟩
        ⟨"new", "n", "P", "dev"⟩ 5).warnings = [] ∧
    (QAgenticReporter.startRun
        ⟨[], some (QAgenticReporter.mkRun ⟨"old", "o", "P", "dev"⟩ 0)⟩
        ⟨"new", "n", "P", "dev"⟩ 5).ret ≠
      some (QAgenticReporter.sealRun (QAgenticReporter.mkRun ⟨"old", "o", "P", "dev"⟩ 0) 9) :=
  have h := startRun_overwrites_active
    ⟨[], some (QAgenticReporter.mkRun ⟨"old", "o", "P", "dev"⟩ 0)⟩
    (QAgenticReporter.mkRun ⟨"old", "o", "P", "dev"⟩ 0)
    ⟨"new", "n", "P", "dev"⟩ 5 rfl
  ⟨h.1, h.2.2.1, h.2.2.2.2 9⟩

theorem applyTest_id (run : TestRunResult) (t : TestResult) :
    (QAgenticReporter.applyTest run t).id = run.id := by
  cases hs : t.status <;> simp [QAgenticReporter.applyTest, hs]

theorem fanOutFrom_errored_false (i : Nat) {sinks : List (SinkEvent → Bool)}
    {e : SinkEvent} (h : ∀ f ∈ sinks, f e = false) :
    (fanOutFrom i sinks e).errored = false := by
  induction sinks generalizing i with
  | nil => rfl
  | cons f fs ih =>
      have hf : f e = false := h f (List.mem_cons_self _ _)
      have hred : fanOutFrom i (f :: fs) e =
          ⟨(i, e) :: (fanOutFrom (i + 1) fs e).invoked,
           (fanOutFrom (i + 1) fs e).errored⟩ := by
        simp [fanOutFrom, hf]
      rw [hred]
      exact ih (i + 1) (fun g hg => h g (List.mem_cons_of_mem _ hg))

theorem range_map_shift (i n : Nat) (e : SinkEvent) :
    (List.range (n + 1)).map (fun j => (i + j, e)) =
      (i, e) :: (List.range n).map (fun j => (i + 1 + j, e)) := by
  rw [List.range_succ_eq_map]
  simp only [List.map_cons, List.map_map, Nat.add_zero]
  refine congrArg (fun l => (i, e) :: l) ?_
  refine List.map_congr_left fun j _ => ?_
  simp only [Function.comp_apply, Prod.mk.injEq]
  exact ⟨by omega, trivial⟩

theorem fanOutFrom_break (pre post : List (SinkEvent → Bool))
    (thrower : SinkEvent → Bool) (e : SinkEvent) (i : Nat)
    (hpre : ∀ f ∈ pre, f e = false) (hthrow : thrower e = true) :
    fanOutFrom i (pre ++ thrower :: post) e =
      ⟨(List.range (pre.length + 1)).map (fun j => (i + j, e)), true⟩ := by
  induction pre generalizing i with
  | nil => simp [fanOutFrom, hthrow, List.range_succ]
  | cons f fs ih =>
      have hf : f e = false := hpre f (List.mem_cons_self _ _)
      have hred : fanOutFrom i ((f :: fs) ++ thrower :: post) e =
          ⟨(i, e) :: (fanOutFrom (i + 1) (fs ++ thrower :: post) e).invoked,
           (fanOutFrom (i + 1) (fs ++ thrower :: post) e).errored⟩ := by
        simp [fanOutFrom, hf]
      rw [hred, ih (i + 1) (fun g hg => hpre g (List.mem_cons_of_mem _ hg))]
      simp only [List.length_cons]
      rw [range_map_shift i (fs.length + 1) e]

/-- A sink whose callback throws exactly on `reportTest` events. -/
def throwsOnReportTest : SinkEvent → Bool
  | SinkEvent.reportTestEv _ => true
  | _ => false

/-- A sink whose callbacks never throw. -/
def neverThrows : SinkEvent → Bool := fun _ => false

/-- Claim C1, counterexample: two registered sinks, the first throwing on
`reportTest`; the orchestrator's fan-out loop (which has no try/catch) invokes
only the throwing sink — the subsequently-registered sink never receives the
call — and the exception escapes `reportTest`. -/
theorem sink_throw_aborts_fanOut :
    ((QAgenticReporter.reportTest
        ⟨[throwsOnReportTest, neverThrows],
         some (QAgenticReporter.mkRun ⟨"r1", "run1", "P", "dev"⟩ 0)⟩
        { id := "t1", name := "a", fullName := "s.a", status := .passed }).fan.invoked =
      [(0, SinkEvent.reportTestEv "t1")]) ∧
    ((QAgenticReporter.reportTest
        ⟨[throwsOnReportTest, neverThrows],
         some (QAgenticReporter.mkRun ⟨"r1", "run1", "P", "dev"⟩ 0)⟩
        { id := "t1", name := "a", fullName := "s.a", status := .passed }).fan.errored = true) :=
  ⟨rfl, rfl⟩

/-- Claim C1 (amended): the orchestrator's fan-out loops contain no
try/catch, so when a sink's callback throws, the sinks registered before it
are invoked in order, the throwing sink is invoked, the subsequently
registered sinks are NOT invoked, and the exception propagates to the
caller.  The run mutation of `reportTest` happens before the fan-out, so a
sink throwing inside `reportTest` still does not prevent a later `endRun`
from completing (provided no sink throws during the `endRun` fan-out
itself). -/
theorem sink_error_propagates (pre post : List (SinkEvent → Bool))
    (thrower : SinkEvent → Bool) (e : SinkEvent)
    (o : QAgenticReporter) (run : TestRunResult) (t : TestResult) (now : Nat)
    (hpre : ∀ f ∈ pre, f e = false) (hthrow : thrower e = true)
    (hrun : o.currentRun = some run)
    (hend : ∀ f ∈ o.sinkThrows, f (SinkEvent.endRunEv run.id) = false) :
    fanOut (pre ++ thrower :: post) e =
      ⟨(List.range (pre.length + 1)).map (fun j => (j, e)), true⟩ ∧
    ((QAgenticReporter.endRun (QAgenticReporter.reportTest o t).state now).ret).isSome = true := by
  constructor
  · have h := fanOutFrom_break pre post thrower e 0 hpre hthrow
    rw [fanOut, h]
    refine congrArg (fun l => FanOut.mk l true) ?_
    exact List.map_congr_left fun j _ => by simp
  · have hstate : (QAgenticReporter.reportTest o t).state =
        { o with currentRun := some (QAgenticReporter.applyTest run t) } := by
      simp [QAgenticReporter.reportTest, hrun]
    rw [hstate]
    have hid : (QAgenticReporter.sealRun (QAgenticReporter.applyTest run t) now).id =
        run.id := applyTest_id run t
    have hfan : (fanOut o.sinkThrows
        (SinkEvent.endRunEv
          (QAgenticReporter.sealRun (QAgenticReporter.applyTest run t) now).id)).errored =
        false := by
      rw [hid]
      exact fanOutFrom_errored_false 0 hend
    simp [QAgenticReporter.endRun, hfan]

/-- Witness for C1's amended theorem: a concrete two-sink orchestrator whose
first sink throws on `reportTest` only. -/
theorem sink_error_propagates_witness :
    fanOut ([] ++ throwsOnReportTest :: [neverThrows])
      (SinkEvent.reportTestEv "t1") =
      ⟨[(0, SinkEvent.reportTestEv "t1")], true⟩ ∧
    ((QAgenticReporter.endRun
        (QAgenticReporter.reportTest
          ⟨[throwsOnReportTest, neverThrows],
           some (QAgenticReporter.mkRun ⟨"r1", "run1", "P", "dev"⟩ 0)⟩
          { id := "t2", name := "b", fullName := "s.b", status := .failed }).state 9).ret).isSome =
      true := by
  have h := sink_error_propagates []
    [neverThrows]
    throwsOnReportTest
    (SinkEvent.reportTestEv "t1")
    ⟨[throwsOnReportTest, neverThrows],
     some (QAgenticReporter.mkRun ⟨"r1", "run1", "P", "dev"⟩ 0)⟩
    (QAgenticReporter.mkRun ⟨"r1", "run1", "P", "dev"⟩ 0)
    { id := "t2", name := "b", fullName := "s.b", status := .failed } 9
    (by intro f hf; simp at hf)
    rfl rfl
    (by
      intro f hf
      rcases List.mem_cons.mp hf with rfl | hf
      · rfl
      · rcases List.mem_cons.mp hf with rfl | hf
        · rfl
        · simp at hf)
  exact ⟨h.1, h.2⟩

/-- A JS `Error` as consumed by `Step.end`: message and optional stack. -/
structure JsError where
  message : String
  stack : Option String := none
deriving DecidableEq, Repr

/-- core/step.ts `Step`: identifier, name, status, timing, error data and
children.  Attachments and parameters are carried opaquely and omitted.
Object identity is represented by `id` (a uuid in the source). -/
structure Step where
  id : String
  name : String
  description : Option String := none
  status : Status := .pending
  startTime : Option Nat := none
  endTime : Option Nat := none
  durationMs : Nat := 0
  error : Option String := none
  errorTrace : Option String := none
  children : List Step := []

namespace Step

/-- The `Step` constructor (core/step.ts:50-55) with its uuid made explicit:
fresh pending step with no timing, no error, no children. -/
def create (sid nm : String) : Step :=
  { id := sid, name := nm, description := none, status := Status.pending,
    startTime := none, endTime := none, durationMs := 0, error := none,
    errorTrace := none, children := [] }

/-- `start()` (core/step.ts:60-65): stamp `startTime`, set status running,
push onto the module-level step stack (the top is the last element, matching
the JS array's `push`).  Returns the started step and the new stack. -/
def start (s : Step) (now : Nat) (stack : List Step) : Step × List Step :=
  let s' := { s with startTime := some now, status := Status.running }
  (s', stack ++ [s'])

/-- `currentSteps.indexOf(this)` + `splice(index, 1)` (core/step.ts:77-80):
remove the first occurrence of the step (identified by its uuid) from the
stack; a step that is not on the stack at all leaves it unchanged. -/
def removeFirst (sid : String) : List Step → List Step
  | [] => []
  | x :: xs => if x.id = sid then xs else x :: removeFirst sid xs

/-- `getCurrentStep()` + `parent.children.push(this)` (core/step.ts:83-86):
append the finished step as last child of the last stack entry, if any. -/
def attachToParent (child : Step) : List Step → List Step
  | [] => []
  | [p] => [{ p with children := p.children ++ [child] }]
  | x :: rest => x :: attachToParent child rest

/-- The field mutations of `end` (core/step.ts:71-74, 88-94): set `endTime`,
derive `durationMs` from the stored start time, and set status failed
(recording message and stack) or passed. -/
def finish (s : Step) (now : Nat) (err : Option JsError) : Step :=
  let s1 := { s with
    endTime := some now,
    durationMs := (match s.startTime with
      | some st => now - st
      | none => s.durationMs) }
  match err with
  | some e => { s1 with
      status := Status.failed
      error := some e.message
      errorTrace := e.stack }
  | none => { s1 with status := Status.passed }

/-- `end(error?)` (core/step.ts:70-97) called on step `s` over the given
stack: compute timing and status, splice `s` out of the stack wherever it is
found, and append the finished step as last child of the now-current top, if
a step remains.  Returns the finished step and the new stack. -/
def end' (s : Step) (now : Nat) (err : Option JsError) (stack : List Step) :
    Step × List Step :=
  let fin := finish s now err
  let stack1 := removeFirst s.id stack
  (fin, attachToParent fin stack1)

end Step

theorem removeFirst_append (pre post : List Step) (s : Step)
    (hpre : ∀ x ∈ pre, x.id ≠ s.id) :
    Step.removeFirst s.id (pre ++ s :: post) = pre ++ post := by
  induction pre with
  | nil => simp [Step.removeFirst]
  | cons x xs ih =>
      have hx : x.id ≠ s.id := hpre x (List.mem_cons_self _ _)
      have ih' := ih (fun y hy => hpre y (List.mem_cons_of_mem _ hy))
      show (if x.id = s.id then xs ++ s :: post
        else x :: Step.removeFirst s.id (xs ++ s :: post)) = x :: (xs ++ post)
      rw [if_neg hx, ih']

theorem attachToParent_concat (c q : Step) (l : List Step) :
    Step.attachToParent c (l ++ [q]) =
      l ++ [{ q with children := q.children ++ [c] }] := by
  induction l with
  | nil => rfl
  | cons x xs ih =>
      cases xs with
      | nil => rfl
      | cons y ys =>
          show x :: Step.attachToParent c ((y :: ys) ++ [q]) = _
          rw [ih]
          rfl

theorem finish_terminal (s : Step) (now : Nat) (err : Option JsError) :
    (Step.finish s now err).status = Status.passed ∨
      (Step.finish s now err).status = Status.failed := by
  cases err <;> simp [Step.finish]

/-- Claim C5: `end()` pops the ended step from the stack and, when a step
remains, appends the finished step as the last child of the now-current
(topmost remaining) step; ending the only stacked step leaves the stack
empty.  In particular `start("A")`, `start("B")`, `end()` (ends B), `end()`
(ends A) leaves A's children containing exactly one step, named "B". -/
theorem end_pops_and_attaches (pre : List Step) (p s : Step) (now : Nat)
    (err : Option JsError) (hfresh : ∀ x ∈ pre ++ [p], x.id ≠ s.id) :
    (Step.end' s now err ((pre ++ [p]) ++ [s])).2 =
      pre ++ [{ p with children := p.children ++ [Step.finish s now err] }] ∧
    (Step.end' s now err [s]).2 = [] ∧
    (let r1 := Step.start (Step.create "idA" "A") 0 []
     let r2 := Step.start (Step.create "idB" "B") 1 r1.2
     let r3 := Step.end' r2.1 2 none r2.2
     ∃ a1, r3.2 = [a1] ∧
       ((Step.end' a1 3 none r3.2).1.children.map (fun c => c.name) = ["B"] ∧
        (Step.end' a1 3 none r3.2).1.children.length = 1 ∧
        (Step.end' a1 3 none r3.2).2 = [])) := by
  refine ⟨?_, ?_, ?_⟩
  · have h1 : Step.removeFirst s.id ((pre ++ [p]) ++ [s]) = pre ++ [p] := by
      have h := removeFirst_append (pre ++ [p]) [] s hfresh
      simpa using h
    show Step.attachToParent (Step.finish s now err)
        (Step.removeFirst s.id ((pre ++ [p]) ++ [s])) = _
    rw [h1, attachToParent_concat]
  · simp [Step.end', Step.removeFirst, Step.attachToParent]
  · exact ⟨_, rfl, rfl, rfl, rfl⟩

/-- Witness for C5 at a concrete two-step stack. -/
theorem end_pops_and_attaches_witness :
    (Step.end' (Step.create "s" "S") 5 none
        (([] ++ [(Step.create "p" "P")]) ++ [(Step.create "s" "S")])).2 =
      [] ++ [{ (Step.create "p" "P") with
        children := (Step.create "p" "P").children ++
          [Step.finish (Step.create "s" "S") 5 none] }] :=
  (end_pops_and_attaches [] (Step.create "p" "P") (Step.create "s" "S")
    5 none (by decide)).1

theorem finish_endTime (s : Step) (now : Nat) (err : Option JsError) :
    (Step.finish s now err).endTime = some now := by
  cases err <;> simp [Step.finish]

/-- Claim C9: calling `end()` on a step that is not the top of the stack is
tolerated: the function is total (nothing is thrown), the step is spliced out
from wherever its first occurrence sits in the stack, timing and terminal
status are still computed, and the finished step is still attached as last
child of the now-current (last remaining) step when one exists. -/
theorem end_non_top (pre post : List Step) (s : Step) (now : Nat)
    (err : Option JsError) (hpre : ∀ x ∈ pre, x.id ≠ s.id) :
    (Step.end' s now err (pre ++ s :: post)).1 = Step.finish s now err ∧
    (Step.end' s now err (pre ++ s :: post)).2 =
      Step.attachToParent (Step.finish s now err) (pre ++ post) ∧
    (Step.finish s now err).endTime = some now ∧
    ((Step.finish s now err).status = Status.passed ∨
      (Step.finish s now err).status = Status.failed) ∧
    (∀ l q, pre ++ post = l ++ [q] →
      (Step.end' s now err (pre ++ s :: post)).2 =
        l ++ [{ q with children := q.children ++ [Step.finish s now err] }]) := by
  have h2 : (Step.end' s now err (pre ++ s :: post)).2 =
      Step.attachToParent (Step.finish s now err) (pre ++ post) := by
    show Step.attachToParent (Step.finish s now err)
        (Step.removeFirst s.id (pre ++ s :: post)) = _
    rw [removeFirst_append pre post s hpre]
  refine ⟨rfl, h2, finish_endTime s now err, finish_terminal s now err, ?_⟩
  intro l q h
  rw [h2, h, attachToParent_concat]

/-- Witness for C9: ending the middle step of a three-step stack. -/
theorem end_non_top_witness :
    (Step.end' (Step.create "s" "S") 5 none
        ([(Step.create "a" "A")] ++ (Step.create "s" "S") ::
          [(Step.create "b" "B")])).2 =
      [(Step.create "a" "A")] ++
        [{ (Step.create "b" "B") with
          children := (Step.create "b" "B").children ++
            [Step.finish (Step.create "s" "S") 5 none] }] :=
  (end_non_top [(Step.create "a" "A")] [(Step.create "b" "B")]
    (Step.create "s" "S") 5 none (by decide)).2.2.2.2
    [(Step.create "a" "A")] (Step.create "b" "B") rfl

/-- How the callback passed to the `step(name, fn)` wrapper settles: a plain
synchronous return, a synchronous throw, a returned promise that fulfills, or
a returned promise that rejects — the four exit paths distinguished by
core/step.ts:184-205. -/
inductive FnBehavior (T : Type) where
  | retVal (v : T)
  | throwSync (e : JsError)
  | resolveAsync (v : T)
  | rejectAsync (e : JsError)

/-- How a call to the wrapper itself settles: a value, or an error
thrown/rejected to the caller. -/
inductive JSOutcome (T : Type) where
  | ok (v : T)
  | threw (e : JsError)
deriving DecidableEq

/-- core/step.ts `step(name, fn)` (lines 171-206): create a step, `start()`
it, run the callback (whose net effect on the shared step stack is `eff`),
and on each of the four exit paths call `end` exactly once — `end()` then
return the value on the two success paths, `end(error)` then re-throw the
same error on the two failure paths.  Returns the settled outcome, the
finished step, and the final stack. -/
def stepRun {T : Type} (name : String) (sid : String) (behavior : FnBehavior T)
    (eff : List Step → List Step) (t0 t1 : Nat) (stack : List Step) :
    JSOutcome T × Step × List Step :=
  let s0 : Step := Step.create sid name
  let p := Step.start s0 t0 stack
  let stack2 := eff p.2
  match behavior with
  | .retVal v =>
      let r := Step.end' p.1 t1 none stack2
      (.ok v, r.1, r.2)
  | .resolveAsync v =>
      let r := Step.end' p.1 t1 none stack2
      (.ok v, r.1, r.2)
  | .throwSync e =>
      let r := Step.end' p.1 t1 (some e) stack2
      (.threw e, r.1, r.2)
  | .rejectAsync e =>
      let r := Step.end' p.1 t1 (some e) stack2
      (.threw e, r.1, r.2)

/-- Claim C4: on every exit path of the `step(name, fn)` wrapper — normal
return, synchronous throw, fulfilled promise, rejected promise — the wrapped
step ends up terminal with its `endTime` stamped (end was applied exactly
once), the callback's error, if any, is recorded on the step and re-thrown
to the caller unchanged, and a successful value is returned unchanged: the
wrapper never swallows errors. -/
theorem stepRun_ends_once_and_rethrows {T : Type} (name sid : String)
    (behavior : FnBehavior T) (eff : List Step → List Step) (t0 t1 : Nat)
    (stack : List Step) :
    (stepRun name sid behavior eff t0 t1 stack).1 =
      (match behavior with
       | .retVal v => .ok v
       | .resolveAsync v => .ok v
       | .throwSync e => .threw e
       | .rejectAsync e => .threw e) ∧
    (stepRun name sid behavior eff t0 t1 stack).2.1.endTime = some t1 ∧
    (stepRun name sid behavior eff t0 t1 stack).2.1.status =
      (match behavior with
       | .throwSync _ => Status.failed
       | .rejectAsync _ => Status.failed
       | _ => Status.passed) ∧
    (stepRun name sid behavior eff t0 t1 stack).2.1.error =
      (match behavior with
       | .throwSync e => some e.message
       | .rejectAsync e => some e.message
       | _ => none) := by
  cases behavior <;>
    simp [stepRun, Step.start, Step.end', Step.finish, Step.create]

/-- The slice of the resolved configuration the API reporter reads
(core/config.ts `api` section): enable flag and batch size. -/
structure APIConfig where
  enabled : Bool
  batchSize : Nat
deriving DecidableEq, Repr

/-- An outbound HTTP call made by the API reporter: run registration POST,
batch-results POST (recording the batch length), or finalize PATCH. -/
inductive APICall where
  | registerPost (runId : String)
  | resultsPost (runId : String) (n : Nat)
  | finalizePatch (runId : String)
deriving DecidableEq, Repr

/-- core/reporter.ts `APIReporter`: configuration, the in-memory batch
buffer, and the run remembered by `startRun`. -/
structure APIReporter where
  config : APIConfig
  batch : List TestResult := []
  currentRun : Option TestRunResult := none
deriving DecidableEq, Repr

namespace APIReporter

/-- `startRun` (core/reporter.ts:251-294): if the API is disabled, do
nothing; otherwise remember the run, reset the batch, and POST the run
registration.  A failed POST is caught and only logged, so the resulting
state does not depend on the POST's fate. -/
def startRun (s : APIReporter) (run : TestRunResult) :
    APIReporter × List APICall :=
  if s.config.enabled then
    ({ s with currentRun := some run, batch := [] }, [APICall.registerPost run.id])
  else (s, [])

/-- `flushBatch` (core/reporter.ts:371-409): return early when the batch is
empty or no run was registered; otherwise POST the whole batch and, in a
`finally`, clear the buffer.  The clearing is in `finally`, so it does not
depend on whether the POST succeeded — accordingly the POST's outcome does
not appear as an input here. -/
def flushBatch (s : APIReporter) : APIReporter × List APICall :=
  match s.currentRun with
  | none => (s, [])
  | some run =>
      if s.batch.length = 0 then (s, [])
      else ({ s with batch := [] }, [APICall.resultsPost run.id s.batch.length])

/-- `reportTest` (core/reporter.ts:353-369): if disabled, skip; otherwise
push the test onto the batch and flush when the buffer length reaches the
configured batch size. -/
def reportTest (s : APIReporter) (t : TestResult) :
    APIReporter × List APICall :=
  if s.config.enabled then
    let s1 := { s with batch := s.batch ++ [t] }
    if s1.batch.length ≥ s.config.batchSize then flushBatch s1
    else (s1, [])
  else (s, [])

/-- `endRun` (core/reporter.ts:296-351): if disabled, skip; otherwise flush
any remaining buffered tests (even a partial batch) and then issue the
finalize PATCH.  Flush failures are caught inside `flushBatch`, so the PATCH
is attempted regardless. -/
def endRun (s : APIReporter) (run : TestRunResult) :
    APIReporter × List APICall :=
  if s.config.enabled then
    let fl := if s.batch.length > 0 then flushBatch s else (s, [])
    (fl.1, fl.2 ++ [APICall.finalizePatch run.id])
  else (s, [])

end APIReporter

/-- Claim C3: with the API enabled and a registered run, `reportTest`
appends the test to the in-memory buffer and triggers a flush exactly when
the buffer length reaches the configured batch size; a flush always clears
the buffer (the clear sits in a `finally`, independent of the POST's
outcome); and with batchSize 2 and three `reportTest` calls, exactly one
automatic flush of 2 occurs, with the remaining 1 flushed during `endRun`
before the finalize PATCH. -/
theorem api_batching (s : APIReporter) (t : TestResult) (run : TestRunResult)
    (hen : s.config.enabled = true) (hrun : s.currentRun = some run) :
    (s.batch.length + 1 < s.config.batchSize →
      APIReporter.reportTest s t = ({ s with batch := s.batch ++ [t] }, [])) ∧
    (s.batch.length + 1 ≥ s.config.batchSize →
      APIReporter.reportTest s t =
        ({ s with batch := [] },
         [APICall.resultsPost run.id (s.batch.length + 1)])) ∧
    (s.batch ≠ [] →
      (APIReporter.flushBatch s).1.batch = [] ∧
      (APIReporter.flushBatch s).2 = [APICall.resultsPost run.id s.batch.length]) ∧
    ((APIReporter.reportTest
        (APIReporter.startRun ⟨⟨true, 2⟩, [], none⟩
          (QAgenticReporter.mkRun ⟨"r1", "run1", "P", "dev"⟩ 0)).1
        { id := "t1", name := "a", fullName := "s.a", status := .passed }).2 = [] ∧
     (APIReporter.reportTest
        (APIReporter.reportTest
          (APIReporter.startRun ⟨⟨true, 2⟩, [], none⟩
            (QAgenticReporter.mkRun ⟨"r1", "run1", "P", "dev"⟩ 0)).1
          { id := "t1", name := "a", fullName := "s.a", status := .passed }).1
        { id := "t2", name := "b", fullName := "s.b", status := .passed }).2 =
       [APICall.resultsPost "r1" 2] ∧
     (APIReporter.reportTest
        (APIReporter.reportTest
          (APIReporter.reportTest
            (APIReporter.startRun ⟨⟨true, 2⟩, [], none⟩
              (QAgenticReporter.mkRun ⟨"r1", "run1", "P", "dev"⟩ 0)).1
            { id := "t1", name := "a", fullName := "s.a", status := .passed }).1
          { id := "t2", name := "b", fullName := "s.b", status := .passed }).1
        { id := "t3", name := "c", fullName := "s.c", status := .failed }).2 = [] ∧
     (APIReporter.endRun
        (APIReporter.reportTest
          (APIReporter.reportTest
            (APIReporter.reportTest
              (APIReporter.startRun ⟨⟨true, 2⟩, [], none⟩
                (QAgenticReporter.mkRun ⟨"r1", "run1", "P", "dev"⟩ 0)).1
              { id := "t1", name := "a", fullName := "s.a", status := .passed }).1
            { id := "t2", name := "b", fullName := "s.b", status := .passed }).1
          { id := "t3", name := "c", fullName := "s.c", status := .failed }).1
        (QAgenticReporter.mkRun ⟨"r1", "run1", "P", "dev"⟩ 0)).2 =
       [APICall.resultsPost "r1" 1, APICall.finalizePatch "r1"]) := by
  refine ⟨?_, ?_, ?_, by decide, by decide, by decide, by decide⟩
  · intro h
    have hlt : ¬ (s.batch ++ [t]).length ≥ s.config.batchSize := by
      simp only [List.length_append, List.length_singleton]
      omega
    simp only [APIReporter.reportTest, hen, if_true]
    rw [if_neg hlt]
  · intro h
    have hge : (s.batch ++ [t]).length ≥ s.config.batchSize := by
      simp only [List.length_append, List.length_singleton]
      omega
    have hne : ¬ (s.batch ++ [t]).length = 0 := by
      simp
    simp only [APIReporter.reportTest, hen, if_true]
    rw [if_pos hge]
    simp only [APIReporter.flushBatch, hrun, if_neg hne]
    simp
  · intro h
    have hne : ¬ s.batch.length = 0 := by
      have hpos : 0 < s.batch.length := List.length_pos.mpr h
      omega
    constructor
    · simp [APIReporter.flushBatch, hrun, hne]
    · simp [APIReporter.flushBatch, hrun, hne]

/-- Witness for C3 at a concrete one-element buffer with batchSize 2. -/
theorem api_batching_witness :
    APIReporter.reportTest
      ⟨⟨true, 2⟩, [], some (QAgenticReporter.mkRun ⟨"r1", "run1", "P", "dev"⟩ 0)⟩
      { id := "t1", name := "a", fullName := "s.a", status := .passed } =
      (⟨⟨true, 2⟩, [{ id := "t1", name := "a", fullName := "s.a", status := .passed }],
        some (QAgenticReporter.mkRun ⟨"r1", "run1", "P", "dev"⟩ 0)⟩, []) ∧
    APIReporter.reportTest
      ⟨⟨true, 2⟩, [{ id := "t0", name := "z", fullName := "s.z", status := .passed }],
       some (QAgenticReporter.mkRun ⟨"r1", "run1", "P", "dev"⟩ 0)⟩
      { id := "t1", name := "a", fullName := "s.a", status := .passed } =
      (⟨⟨true, 2⟩, [],
        some (QAgenticReporter.mkRun ⟨"r1", "run1", "P", "dev"⟩ 0)⟩,
       [APICall.resultsPost "r1" 2]) :=
  ⟨(api_batching
      ⟨⟨true, 2⟩, [], some (QAgenticReporter.mkRun ⟨"r1", "run1", "P", "dev"⟩ 0)⟩
      { id := "t1", name := "a", fullName := "s.a", status := .passed }
      (QAgenticReporter.mkRun ⟨"r1", "run1", "P", "dev"⟩ 0) rfl rfl).1 (by decide),
   (api_batching
      ⟨⟨true, 2⟩, [{ id := "t0", name := "z", fullName := "s.z", status := .passed }],
       some (QAgenticReporter.mkRun ⟨"r1", "run1", "P", "dev"⟩ 0)⟩
      { id := "t1", name := "a", fullName := "s.a", status := .passed }
      (QAgenticReporter.mkRun ⟨"r1", "run1", "P", "dev"⟩ 0) rfl rfl).2.1 (by decide)⟩

namespace JUnitReporter

/-- One `.replace(/c/g, rep)` pass of the `escape` helper
(core/reporter.ts:184-189), on the character list underlying a JS string. -/
def replaceChar (c : Char) (rep : List Char) : List Char → List Char
  | [] => []
  | x :: xs =>
    if x = c then rep ++ replaceChar c rep xs else x :: replaceChar c rep xs

/-- The `escape` helper: `&`, `<`, `>`, `"` to entities, the four passes
applied in the source's order. -/
def escapeChars (s : List Char) : List Char :=
  replaceChar '"' ("&quot;".data)
    (replaceChar '>' ("&gt;".data)
      (replaceChar '<' ("&lt;".data)
        (replaceChar '&' ("&amp;".data) s)))

/-- Decimal digit character for a digit below 10. -/
def decChar (d : Nat) : Char := Char.ofNat (48 + d)

/-- Its value again. -/
def digitVal (c : Char) : Nat := c.toNat - 48

/-- Decimal rendering of a JS number holding a natural — the
template-literal interpolation `${run.total}` etc. -/
def decChars (n : Nat) : List Char :=
  if n = 0 then ['0'] else ((Nat.digits 10 n).reverse).map decChar

/-- `(ms / 1000).toFixed(3)`: exact decimal seconds for natural
millisecond counts. -/
def timeChars (ms : Nat) : List Char :=
  decChars (ms / 1000) ++ '.' ::
    (if ms % 1000 < 10 then '0' :: '0' :: decChars (ms % 1000)
     else if ms % 1000 < 100 then '0' :: decChars (ms % 1000)
     else decChars (ms % 1000))

/-- Stand-in for `run.startTime?.toISOString() || ''` on an epoch-millisecond
timestamp; the timestamp attribute's format is irrelevant to every claim,
only its position in the document matters. -/
def timestampChars : Option Nat → List Char
  | none => []
  | some n => decChars n

/-- JS `||`-defaulting on an optional string: an absent OR empty (falsy)
string picks the fallback. -/
def jsOr (s : Option String) (dflt : String) : String :=
  match s with
  | some m => if m = "" then dflt else m
  | none => dflt

/-- The `<testcase>` element emitted for one test
(core/reporter.ts:200-232): common attributes, then a self-closing tag for
passed (and other) statuses, or a `failure`/`error`/`skipped` child. -/
def testcaseChars (t : TestResult) : List Char :=
  let base := "  <testcase name=\"".data ++ escapeChars t.name.data ++
    "\" classname=\"".data ++ escapeChars t.fullName.data ++
    "\" time=\"".data ++ timeChars t.durationMs ++ "\"".data
  match t.status with
  | .passed => base ++ "/>\n".data
  | .failed => base ++ ">\n    <failure message=\"".data ++
      escapeChars (jsOr t.errorMessage "Test failed").data ++
      "\" type=\"".data ++ escapeChars (jsOr t.errorType "AssertionError").data ++
      "\">".data ++
      (match t.stackTrace with
       | some st => escapeChars st.data
       | none => []) ++
      "</failure>\n  </testcase>\n".data
  | .broken => base ++ ">\n    <error message=\"".data ++
      escapeChars (jsOr t.errorMessage "Test error").data ++
      "\" type=\"".data ++ escapeChars (jsOr t.errorType "Error").data ++
      "\">".data ++
      (match t.stackTrace with
       | some st => escapeChars st.data
       | none => []) ++
      "</error>\n  </testcase>\n".data
  | .skipped => base ++ ">\n    <skipped".data ++
      (match t.errorMessage with
       | some m =>
         if m = "" then [] else " message=\"".data ++ escapeChars m.data ++ "\"".data
       | none => []) ++
      "/>\n  </testcase>\n".data
  | _ => base ++ "/>\n".data

/-- The document prefix up to and including `<testsuite name="`. -/
def xmlHeader : List Char :=
  "<?xml version=\"1.0\" encoding=\"UTF-8\"?>\n<testsuite name=\"".data

/-- The separators between the quoted testsuite attribute values; each value
is closed by the `'"'` spliced in front of the following key in
`generateXmlChars`. -/
def testsKey : List Char := " tests=\"".data

def failuresKey : List Char := " failures=\"".data

def errorsKey : List Char := " errors=\"".data

def skippedKey : List Char := " skipped=\"".data

def timeKey : List Char := " time=\"".data

def timestampKey : List Char := " timestamp=\"".data

/-- `generateXml` (core/reporter.ts:183-236) as the character list of the
produced JS string.  The pieces appear exactly in the source's emission
order; each attribute value's closing quote is written as an explicit cons
in front of the next key so the quote-delimited structure the parser relies
on is syntactically visible (string-wise this is the very same
concatenation). -/
def generateXmlChars (run : TestRunResult) : List Char :=
  xmlHeader ++ (escapeChars run.projectName.data ++ ('"' :: (testsKey ++
    (decChars run.total ++ ('"' :: (failuresKey ++ (decChars run.failed ++
    ('"' :: (errorsKey ++ (decChars run.broken ++ ('"' :: (skippedKey ++
    (decChars run.skipped ++ ('"' :: (timeKey ++ (timeChars run.durationMs ++
    ('"' :: (timestampKey ++ (timestampChars run.startTime ++ ("\">\n".data ++
    ((run.tests.map testcaseChars).flatten ++ "</testsuite>\n".data)))))))))))))))))))))

/-- `generateXml` as a JS string. -/
def generateXml (run : TestRunResult) : String :=
  ⟨generateXmlChars run⟩

/-- Strip an expected literal prefix. -/
def stripLit : List Char → List Char → Option (List Char)
  | [], s => some s
  | _ :: _, [] => none
  | c :: cs, x :: xs => if x = c then stripLit cs xs else none

/-- Read an attribute value: everything up to the first `'"'`, consuming
it. -/
def splitAtQuote : List Char → Option (List Char × List Char)
  | [] => none
  | c :: cs =>
    if c = '"' then some (([] : List Char), cs)
    else (splitAtQuote cs).map fun p => (c :: p.1, p.2)

/-- Value of a nonempty all-digit attribute. -/
def digitsVal? (l : List Char) : Option Nat :=
  if l ≠ [] ∧ l.all Char.isDigit then
    some (l.foldl (fun a c => a * 10 + digitVal c) 0)
  else none

/-- Read one `key="<digits>"` attribute, returning its numeric value and the
rest of the document. -/
def readNatAttr (key : List Char) (s : List Char) : Option (Nat × List Char) :=
  (stripLit key s).bind fun s1 =>
    (splitAtQuote s1).bind fun p =>
      (digitsVal? p.1).map fun n => (n, p.2)

/-- Parse the `tests`, `failures`, `errors` and `skipped` attributes of the
single `<testsuite>` element, reading the document left to right.  Attribute
values end at the first quote, which is sound because `escape` leaves no
literal quote in any emitted value. -/
def parseSuiteCounters (xml : String) : Option (Nat × Nat × Nat × Nat) :=
  (stripLit xmlHeader xml.data).bind fun s0 =>
    (splitAtQuote s0).bind fun _name =>
      (readNatAttr testsKey _name.2).bind fun q1 =>
        (readNatAttr failuresKey q1.2).bind fun q2 =>
          (readNatAttr errorsKey q2.2).bind fun q3 =>
            (readNatAttr skippedKey q3.2).map fun q4 =>
              (q1.1, q2.1, q3.1, q4.1)

end JUnitReporter

namespace JUnitReporter

theorem optBind_some {α β : Type} (a : α) (f : α → Option β) :
    (some a).bind f = f a := rfl

theorem stripLit_append (l r : List Char) : stripLit l (l ++ r) = some r := by
  induction l with
  | nil => rfl
  | cons c cs ih => simp [stripLit, ih]

theorem splitAtQuote_append {v : List Char} (hv : '"' ∉ v) (r : List Char) :
    splitAtQuote (v ++ '"' :: r) = some (v, r) := by
  induction v with
  | nil => simp [splitAtQuote]
  | cons c cs ih =>
      have hc : ¬ c = '"' := fun h => hv (h ▸ List.mem_cons_self c cs)
      have ih' := ih (fun h => hv (List.mem_cons_of_mem _ h))
      simp [splitAtQuote, hc, ih']

theorem digitVal_decChar {d : Nat} (h : d < 10) : digitVal (decChar d) = d := by
  interval_cases d <;> decide

theorem isDigit_decChar {d : Nat} (h : d < 10) : (decChar d).isDigit = true := by
  interval_cases d <;> decide

theorem decChars_all_digits (n : Nat) : (decChars n).all Char.isDigit = true := by
  rw [decChars]
  split
  · decide
  · rw [List.all_eq_true]
    intro c hc
    obtain ⟨d, hd, rfl⟩ := List.mem_map.mp hc
    exact isDigit_decChar (Nat.digits_lt_base (by norm_num) (List.mem_reverse.mp hd))

theorem decChars_no_quote (n : Nat) : '"' ∉ decChars n := by
  intro h
  have hd := List.all_eq_true.mp (decChars_all_digits n) _ h
  exact absurd hd (by decide)

theorem decChars_ne_nil (n : Nat) : decChars n ≠ [] := by
  rw [decChars]
  split
  · simp
  · simp only [ne_eq, List.map_eq_nil_iff, List.reverse_eq_nil_iff]
    next h => exact Nat.digits_ne_nil_iff_ne_zero.mpr h

theorem foldl_digitVal_decChar (l : List Nat) (h : ∀ d ∈ l, d < 10) (acc : Nat) :
    l.foldl (fun a d => a * 10 + digitVal (decChar d)) acc =
      l.foldl (fun a d => a * 10 + d) acc := by
  induction l generalizing acc with
  | nil => rfl
  | cons d ds ih =>
      simp only [List.foldl_cons]
      rw [digitVal_decChar (h d (List.mem_cons_self _ _)),
        ih (fun x hx => h x (List.mem_cons_of_mem _ hx))]

theorem foldr_eq_ofDigits (l : List Nat) :
    l.foldr (fun d a => a * 10 + d) 0 = Nat.ofDigits 10 l := by
  induction l with
  | nil => simp [Nat.ofDigits_nil]
  | cons d ds ih =>
      simp only [List.foldr_cons, ih, Nat.ofDigits_cons]
      ring

theorem digitsVal?_decChars (n : Nat) : digitsVal? (decChars n) = some n := by
  rw [digitsVal?, if_pos ⟨decChars_ne_nil n, decChars_all_digits n⟩]
  rcases Nat.eq_zero_or_pos n with rfl | hp
  · decide
  · have hne : n ≠ 0 := Nat.pos_iff_ne_zero.mp hp
    rw [decChars, if_neg hne]
    rw [List.foldl_map]
    rw [foldl_digitVal_decChar _
      (fun d hd => Nat.digits_lt_base (by norm_num) (List.mem_reverse.mp hd)) 0]
    rw [List.foldl_reverse]
    have hfr : (Nat.digits 10 n).foldr (fun x y => y * 10 + x) 0 =
        (Nat.digits 10 n).foldr (fun d a => a * 10 + d) 0 := rfl
    rw [hfr, foldr_eq_ofDigits, Nat.ofDigits_digits]

theorem readNatAttr_round (key : List Char) (n : Nat) (r : List Char) :
    readNatAttr key (key ++ (decChars n ++ '"' :: r)) = some (n, r) := by
  rw [readNatAttr, stripLit_append]
  rw [optBind_some]
  rw [splitAtQuote_append (decChars_no_quote n) r]
  rw [optBind_some]
  show (digitsVal? (decChars n)).map _ = _
  rw [digitsVal?_decChars]
  rfl

theorem replaceChar_self_no (c : Char) (rep : List Char) (hrep : c ∉ rep)
    (l : List Char) : c ∉ replaceChar c rep l := by
  induction l with
  | nil => simp [replaceChar]
  | cons x xs ih =>
      rw [replaceChar]
      by_cases hx : x = c
      · rw [if_pos hx]
        intro hmem
        rcases List.mem_append.mp hmem with h | h
        · exact hrep h
        · exact ih h
      · rw [if_neg hx]
        intro hmem
        rcases List.mem_cons.mp hmem with h | h
        · exact hx h.symm
        · exact ih h

theorem escape_no_quote (s : List Char) : '"' ∉ escapeChars s :=
  replaceChar_self_no '"' _ (by decide) _

theorem parse_shape (nm : List Char) (a b c d : Nat) (rest : List Char)
    (hnm : '"' ∉ nm) :
    parseSuiteCounters ⟨xmlHeader ++ (nm ++ ('"' :: (testsKey ++ (decChars a ++
      ('"' :: (failuresKey ++ (decChars b ++ ('"' :: (errorsKey ++ (decChars c ++
      ('"' :: (skippedKey ++ (decChars d ++ ('"' :: rest))))))))))))))⟩ =
      some (a, b, c, d) := by
  rw [parseSuiteCounters]
  rw [show (⟨xmlHeader ++ (nm ++ ('"' :: (testsKey ++ (decChars a ++
      ('"' :: (failuresKey ++ (decChars b ++ ('"' :: (errorsKey ++ (decChars c ++
      ('"' :: (skippedKey ++ (decChars d ++ ('"' :: rest))))))))))))))⟩ : String).data =
    xmlHeader ++ (nm ++ ('"' :: (testsKey ++ (decChars a ++
      ('"' :: (failuresKey ++ (decChars b ++ ('"' :: (errorsKey ++ (decChars c ++
      ('"' :: (skippedKey ++ (decChars d ++ ('"' :: rest)))))))))))))) from rfl]
  rw [stripLit_append, optBind_some, splitAtQuote_append hnm, optBind_some]
  show (readNatAttr testsKey (testsKey ++ (decChars a ++ _))).bind _ = _
  rw [readNatAttr_round, optBind_some]
  show (readNatAttr failuresKey (failuresKey ++ (decChars b ++ _))).bind _ = _
  rw [readNatAttr_round, optBind_some]
  show (readNatAttr errorsKey (errorsKey ++ (decChars c ++ _))).bind _ = _
  rw [readNatAttr_round, optBind_some]
  show (readNatAttr skippedKey (skippedKey ++ (decChars d ++ _))).map _ = _
  rw [readNatAttr_round]
  rfl

end JUnitReporter

/-- Claim C7: parsing the `tests`, `failures`, `errors` and `skipped`
attributes of the `<testsuite>` element emitted at `endRun` recovers exactly
the sealed run's `total`, `failed`, `broken` and `skipped` counters — the
JUnit output round-trips the counters, for every run (escaping guarantees no
stray quote can cut an attribute value short). -/
theorem junit_counters_roundTrip (run : TestRunResult) :
    JUnitReporter.parseSuiteCounters (JUnitReporter.generateXml run) =
      some (run.total, run.failed, run.broken, run.skipped) :=
  JUnitReporter.parse_shape (JUnitReporter.escapeChars run.projectName.data)
    run.total run.failed run.broken run.skipped
    (JUnitReporter.timeKey ++ (JUnitReporter.timeChars run.durationMs ++
      ('"' :: (JUnitReporter.timestampKey ++
        (JUnitReporter.timestampChars run.startTime ++ ("\">\n".data ++
          ((run.tests.map JUnitReporter.testcaseChars).flatten ++
            "</testsuite>\n".data)))))))
    (JUnitReporter.escape_no_quote _)

end QAgentic
